import Mathlib

/-!
Verification development for the `derive-quickcheck-arbitrary` crate
(`src/lib.rs`): a derive macro that synthesizes an implementation of
`quickcheck::Arbitrary` for a struct or enum declaration.

The embedding is shallow:

* `proc_macro2::TokenStream` is modelled as an opaque list of token strings.
* `syn::Error` drops spans; an error is the list of its messages, and
  `syn::Error::combine` appends the second error's messages after the first.
* The external `structmeta`-generated parser `AttrArgs::parse` and the
  external `syn` predicate parser `Punctuated::<WherePredicate, Comma>::parse_terminated`
  are collaborators outside this crate; their *results* are part of the input
  model (an `Except SynError AttrArgs` stored on each attribute, and an
  `Except SynError (List String)` stored in the `where` key).
* The generated Rust code is modelled syntactically (`Ctor`) and its runtime
  meaning is given by an evaluator (`evalCtor`) over an explicit generator
  state, with the behaviour of the external collaborators
  (`Arbitrary::arbitrary` for member types, `Default::default`, user `gen`
  callables, `quickcheck::Gen::choose`) supplied by an environment `Env`.
  Rust's evaluation order for `let options = [e1, ..., en]; g.choose(..)` is
  left-to-right elements first, then the call: the evaluator reproduces it.
-/

namespace DQA

/-- `proc_macro2::TokenStream`, modelled as an opaque list of token strings. -/
abbrev TokenStream := List String

/-- Model of `syn::Error`: spans are dropped, an error is its list of messages.
`syn::Error::new(span, msg)` is `⟨[msg]⟩`. -/
structure SynError where
  msgs : List String
deriving DecidableEq, Repr

/-- `syn::Error::new(span, msg)` with the span dropped. -/
def SynError.new (msg : String) : SynError := ⟨[msg]⟩

/-- `syn::Error::combine`: the second error's messages follow the first's. -/
def SynError.combine (e other : SynError) : SynError := ⟨e.msgs ++ other.msgs⟩

deriving instance DecidableEq for Except

/-- The `structmeta`-derived argument record of `src/lib.rs` (`struct AttrArgs`):
the four recognized keys.  `gen` and `where` carry their argument tokens;
since the predicate list of `where` is parsed by the external
`Punctuated::parse_terminated`, the `whereArgs` field carries that external
parser's result (predicates as opaque strings). -/
structure AttrArgs where
  gen : Option TokenStream
  skip : Bool
  default : Bool
  whereArgs : Option (Except SynError (List String))
deriving DecidableEq, Repr

/-- `enum Arg` of `src/lib.rs`: one resolved configuration.
(`Arg::Where` holds the parsed predicate list.) -/
inductive Arg where
  | skip
  | gen (ts : TokenStream)
  | default
  | whereArg (preds : List String)
deriving DecidableEq, Repr

/-- The unified hint message of `impl Parse for Arg` (exact source text,
including its double space). -/
def hintMsg : String := "expected one of  `gen`, `default`, `where` or `skip`"

/-- `impl Parse for Arg` of `src/lib.rs`: takes the result of the external
`AttrArgs::parse` on the annotation's content and classifies it.  The match
arms are in source order: inner parse error (hint combined with it); no key
recognized; just `skip`; just `gen`; just `where` (propagating the predicate
parser's error via `?`); just `default`; any other combination. -/
def Arg.parse (input : Except SynError AttrArgs) : Except SynError Arg :=
  match input with
  | .error e => .error ((SynError.new hintMsg).combine e)
  | .ok ⟨none, false, false, none⟩ => .error (SynError.new hintMsg)
  | .ok ⟨none, true, false, none⟩ => .ok .skip
  | .ok ⟨some args, false, false, none⟩ => .ok (.gen args)
  | .ok ⟨none, false, false, some res⟩ =>
      match res with
      | .ok preds => .ok (.whereArg preds)
      | .error e => .error e
  | .ok ⟨none, false, true, none⟩ => .ok .default
  | .ok _ => .error (SynError.new hintMsg)

/-- `syn::AttrStyle`. -/
inductive AttrStyle where
  | outer
  | inner
deriving DecidableEq, Repr

/-- A `syn::Attribute` as consumed by `get_one_arg`: whether its path is the
reserved marker `arbitrary`, its style, and the external `AttrArgs::parse`
result on its argument tokens (what `attr.parse_args::<Arg>()` feeds into
`Arg::parse`). -/
structure Attribute where
  isArbitrary : Bool
  style : AttrStyle
  parsedArgs : Except SynError AttrArgs
deriving DecidableEq, Repr

/-- Message for inner-style attributes in `get_one_arg`. -/
def innerMsg : String := "only outer attributes are supported: `#[arbitrary(...)]`"

/-- Message for duplicated attributes in `get_one_arg`. -/
def dupMsg : String := "`#[arbitrary(...)]` can only be specified once"

/-- The per-attribute step of `get_one_arg`: outer attributes have their
argument tokens parsed as an `Arg`; inner attributes are a hard error
regardless of content. -/
def parseAttr (attr : Attribute) : Except SynError Arg :=
  match attr.style with
  | .outer => Arg.parse attr.parsedArgs
  | .inner => .error (SynError.new innerMsg)

/-- `.map(..).collect::<Result<Vec<_>, _>>()` over the marker-matching
attributes: stops at the first failing attribute. -/
def collectConfigs : List Attribute → Except SynError (List Arg)
  | [] => .ok []
  | a :: rest =>
      match parseAttr a with
      | .error e => .error e
      | .ok arg =>
          match collectConfigs rest with
          | .error e => .error e
          | .ok rest' => .ok (arg :: rest')

/-- `get_one_arg` of `src/lib.rs`: keeps only attributes whose path is the
reserved marker `arbitrary`, parses each (style check first), then matches on
the count: zero gives no configuration, one gives it, more is a duplication
error. -/
def get_one_arg (attrs : List Attribute) : Except SynError (Option Arg) :=
  match collectConfigs (attrs.filter (·.isArbitrary)) with
  | .error e => .error e
  | .ok [] => .ok none
  | .ok [one] => .ok (some one)
  | .ok (_ :: _ :: _) => .error (SynError.new dupMsg)

/-- A `syn::Field`: its attributes, optional name, and declared type
(type rendered opaquely). -/
structure Field where
  attrs : List Attribute
  ident : Option String
  ty : String
deriving DecidableEq, Repr

/-- `syn::Member`: named field or positional index. -/
inductive Member where
  | named (n : String)
  | unnamed (ix : Nat)
deriving DecidableEq, Repr

/-- The value expression emitted for one field by `field_values`:
`genCall custom ty` is `(( custom ) as ( fn(&mut Gen) -> ty ))(&mut *g)`,
`defaultCall ty` is `::core::default::Default::default()` (the member type
`ty` being fixed by inference at the field site), and `arbitraryCall ty` is
`::quickcheck::Arbitrary::arbitrary(g)` (again with `ty` fixed by inference). -/
inductive FieldExpr where
  | genCall (custom : TokenStream) (ty : String)
  | defaultCall (ty : String)
  | arbitraryCall (ty : String)
deriving DecidableEq, Repr

/-- A `syn::FieldValue` as built by `field_values` (attrs empty, colon present). -/
structure FieldValue where
  member : Member
  expr : FieldExpr
deriving DecidableEq, Repr

/-- Message for `skip`/`where` on a field in `field_values`. -/
def memberMsg : String := "`skip` and `where` are not valid for members"

/-- The member position emitted for the field at index `ix`: its name when it
has one, its positional index otherwise. -/
def memberOf (ix : Nat) (f : Field) : Member :=
  match f.ident with
  | some n => Member.named n
  | none => Member.unnamed ix

/-- The body of the closure in `field_values` for the field at index `ix`. -/
def fieldValue (ix : Nat) (f : Field) : Except SynError FieldValue :=
  match get_one_arg f.attrs with
  | .error e => .error e
  | .ok (some .skip) | .ok (some (.whereArg _)) => .error (SynError.new memberMsg)
  | .ok (some (.gen custom)) => .ok ⟨memberOf ix f, .genCall custom f.ty⟩
  | .ok (some .default) => .ok ⟨memberOf ix f, .defaultCall f.ty⟩
  | .ok none => .ok ⟨memberOf ix f, .arbitraryCall f.ty⟩

/-- `fields.into_iter().enumerate().map(..).collect()`: indices from `ix`. -/
def fieldValuesFrom (ix : Nat) : List Field → Except SynError (List FieldValue)
  | [] => .ok []
  | f :: rest =>
      match fieldValue ix f with
      | .error e => .error e
      | .ok fv =>
          match fieldValuesFrom (ix + 1) rest with
          | .error e => .error e
          | .ok rest' => .ok (fv :: rest')

/-- `field_values` of `src/lib.rs`. -/
def field_values (fields : List Field) : Except SynError (List FieldValue) :=
  fieldValuesFrom 0 fields

/-- A `syn::Variant`: attributes, name, fields. -/
structure Variant where
  attrs : List Attribute
  ident : String
  fields : List Field
deriving DecidableEq, Repr

/-- `syn::Data` of the derive input. -/
inductive Data where
  | dataStruct (fields : List Field)
  | dataEnum (variants : List Variant)
  | dataUnion
deriving DecidableEq, Repr

/-- `syn::DeriveInput`: name, generic parameters (opaque tokens), attributes,
and body. -/
structure DeriveInput where
  ident : String
  generics : TokenStream
  attrs : List Attribute
  data : Data
deriving DecidableEq, Repr

/-- One element of the enum's `options` array: the `ExprStruct` built by
`expr_struct(path_of_idents([struct_name, ident]), fields)`. -/
structure VariantCtor where
  path : List String
  fields : List FieldValue
deriving DecidableEq, Repr

/-- The constructor body emitted by `expand_arbitrary`:
`structExpr` is the record construction expression; `chooseExpr opts` is
`let options = [ c1, ..., cn, ];
 g.choose(options.as_slice()).expect("no variants to choose from").clone()`. -/
inductive Ctor where
  | structExpr (path : List String) (fields : List FieldValue)
  | chooseExpr (options : List VariantCtor)
deriving DecidableEq, Repr

/-- The generated `impl`: type name, its generic parameter tokens, the
where-clause predicate list, and the body of `fn arbitrary`. -/
structure Generated where
  name : String
  generics : TokenStream
  predicates : List String
  ctor : Ctor
deriving DecidableEq, Repr

/-- Message for `gen`/`default`/`where` on an enum variant. -/
def variantMsg : String := "`gen`, `default` and `where` are not valid for enum variants"

/-- Message for `default`/`gen`/`skip` on the item. -/
def itemMsg : String := "only `where` is valid for items"

/-- Message for a `union` input. -/
def unionMsg : String := "#[derive(Arbitrary)] is not supported on `union`s"

/-- The per-variant closure of the enum arm of `expand_arbitrary`: a variant
with no configuration contributes its construction expression, `skip`
contributes nothing, and any other configuration is an error. -/
def variantCtorOf (structName : String) (v : Variant) : Except SynError (Option VariantCtor) :=
  match get_one_arg v.attrs with
  | .ok none =>
      match field_values v.fields with
      | .ok fvs => .ok (some ⟨[structName, v.ident], fvs⟩)
      | .error e => .error e
  | .ok (some .skip) => .ok none
  | .ok (some (.gen _)) | .ok (some .default) | .ok (some (.whereArg _)) =>
      .error (SynError.new variantMsg)
  | .error e => .error e

/-- `variants.into_iter().filter_map(..).collect::<Result<Vec<_>, _>>()`:
skipped variants are dropped, the first error stops the collection. -/
def variantCtors (structName : String) : List Variant → Except SynError (List VariantCtor)
  | [] => .ok []
  | v :: rest =>
      match variantCtorOf structName v with
      | .error e => .error e
      | .ok o =>
          match variantCtors structName rest with
          | .error e => .error e
          | .ok rest' =>
              .ok (match o with
                   | some c => c :: rest'
                   | none => rest')

/-- The first step of `expand_arbitrary` (lines 86–95): the item-level
configuration becomes the where-clause predicate list; only `where` or no
configuration is legal on the item. -/
def itemPredicates (attrs : List Attribute) : Except SynError (List String) :=
  match get_one_arg attrs with
  | .ok (some (.whereArg preds)) => .ok preds
  | .ok none => .ok []
  | .ok (some .default) | .ok (some (.gen _)) | .ok (some .skip) =>
      .error (SynError.new itemMsg)
  | .error e => .error e

/-- The `ctor` match of `expand_arbitrary` (lines 101–150): record inputs get
one struct construction expression, enum inputs get the options array and
choose call, `union`s are rejected. -/
def ctorOf (name : String) (d : Data) : Except SynError Ctor :=
  match d with
  | .dataStruct fields =>
      match field_values fields with
      | .ok fvs => .ok (.structExpr [name] fvs)
      | .error e => .error e
  | .dataEnum variants =>
      match variantCtors name variants with
      | .ok opts => .ok (.chooseExpr opts)
      | .error e => .error e
  | .dataUnion => .error (SynError.new unionMsg)

/-- `expand_arbitrary` of `src/lib.rs`: resolves the item-level configuration
into the where-clause predicates first, then builds the constructor body
according to the input's kind, and assembles the generated `impl`. -/
def expand_arbitrary (input : DeriveInput) : Except SynError Generated :=
  match itemPredicates input.attrs with
  | .error e => .error e
  | .ok predicates =>
      match ctorOf input.ident input.data with
      | .error e => .error e
      | .ok ctor => .ok ⟨input.ident, input.generics, predicates, ctor⟩

/-! ### Runtime semantics of the generated code

The generated `fn arbitrary(g: &mut Gen) -> Self` body is interpreted over an
explicit generator state.  The state carries an infinite stream of numbers
(the randomness the handle yields), a cursor into it, and a trace of
observable events, so that randomness consumption and side effects of the
external collaborators are visible in the model. -/

/-- The `&mut quickcheck::Gen` handle: a stream of random numbers, a cursor,
and a trace of observable events. -/
structure GenState where
  rand : Nat → Nat
  idx : Nat
  trace : List String

/-- A produced Rust value: an opaque primitive, or a struct/variant value
with its path and field values. -/
inductive Val where
  | prim (n : Nat)
  | mkStruct (path : List String) (fields : List (Member × Val))

/-- Behaviour of the external collaborators the generated code calls into:
`arbitraryImpl ty` is `<ty as Arbitrary>::arbitrary(g)` (may consume the
handle), `defaultImpl ty` is `<ty as Default>::default()` (a pure value, no
handle access), and `genImpl custom ty` is the user callable `custom` after
its cast to `fn(&mut Gen) -> ty`, applied to the handle. -/
structure Env where
  arbitraryImpl : String → GenState → Val × GenState
  defaultImpl : String → Val
  genImpl : TokenStream → String → GenState → Val × GenState

/-- Meaning of one emitted field expression: `gen` invokes the cast callable
once, forwarding the handle; `default` produces the type's default value and
leaves the handle untouched; the unannotated case recurses into the member
type's own `arbitrary` with the shared handle. -/
def evalFieldExpr (env : Env) : FieldExpr → GenState → Val × GenState
  | .genCall custom ty, s => env.genImpl custom ty s
  | .defaultCall ty, s => (env.defaultImpl ty, s)
  | .arbitraryCall ty, s => env.arbitraryImpl ty s

/-- A struct expression `Path { m1: e1, ..., mn: en }` evaluates its field
expressions left to right, threading the handle. -/
def evalFields (env : Env) : List FieldValue → GenState → List (Member × Val) × GenState
  | [], s => ([], s)
  | fv :: rest, s =>
      let p := evalFieldExpr env fv.expr s
      let q := evalFields env rest p.2
      ((fv.member, p.1) :: q.1, q.2)

/-- The array literal `[ c1, ..., cn, ]` evaluates every element, left to
right, threading the handle through all of them. -/
def evalOptions (env : Env) : List VariantCtor → GenState → List Val × GenState
  | [], s => ([], s)
  | vc :: rest, s =>
      let p := evalFields env vc.fields s
      let q := evalOptions env rest p.2
      (Val.mkStruct vc.path p.1 :: q.1, q.2)

/-- `quickcheck::Gen::choose`: `None` on an empty slice (no randomness
consumed); otherwise one uniformly chosen element — modelled as consuming the
next stream number `r` and returning the element at `r % length`. -/
def genChoose (s : GenState) : List Val → Option Val × GenState
  | [] => (none, s)
  | o :: os =>
      let r := s.rand s.idx
      (some ((o :: os).getD (r % (os.length + 1)) o), ⟨s.rand, s.idx + 1, s.trace⟩)

/-- Message of the `.expect(..)` on the choose call. -/
def chooseMsg : String := "no variants to choose from"

/-- Meaning of the emitted constructor body.  For an enum this is
`let options = [ c1, ..., cn, ];
 g.choose(options.as_slice()).expect("no variants to choose from").clone()`:
the array literal is fully evaluated before `choose` runs, `.expect` panics
with its message on an empty slice, and `.clone()` yields the chosen element. -/
def evalCtor (env : Env) (c : Ctor) (s : GenState) : Except String (Val × GenState) :=
  match c with
  | .structExpr path fvs =>
      let p := evalFields env fvs s
      .ok (.mkStruct path p.1, p.2)
  | .chooseExpr opts =>
      let p := evalOptions env opts s
      match genChoose p.2 p.1 with
      | (some v, s2) => .ok (v, s2)
      | (none, _) => .error chooseMsg

/-! ### Spec-side recipes

These definitions follow the specification's wording (per-field `Strategy`
table, per-variant `VariantPlan`); the theorems compare the source-derived
functions above against them. -/

/-- Number of recognized keys present in an `AttrArgs` record. -/
def keyCount (a : AttrArgs) : Nat :=
  (if a.gen.isSome then 1 else 0) + (if a.skip then 1 else 0) +
    (if a.default then 1 else 0) + (if a.whereArgs.isSome then 1 else 0)

/-- Configurations legal on a field site: none (`Recurse`), `gen`, `default`. -/
def fieldArgOk : Option Arg → Bool
  | none => true
  | some (.gen _) => true
  | some .default => true
  | some .skip => false
  | some (.whereArg _) => false

/-- The spec's per-field `Strategy` table: `gen` yields the cast-and-call
expression, `default` the default call, no configuration the recursive
`arbitrary` call. -/
def fieldExprOf : Option Arg → String → FieldExpr
  | some (.gen custom), ty => .genCall custom ty
  | some .default, ty => .defaultCall ty
  | _, ty => .arbitraryCall ty

/-- The spec's record recipe: one field value per field, in declaration
order, member names or positional indices, expressions per `fieldExprOf`. -/
def expectedFVs (argOf : Field → Option Arg) : Nat → List Field → List FieldValue
  | _, [] => []
  | ix, f :: rest =>
      ⟨memberOf ix f, fieldExprOf (argOf f) f.ty⟩ :: expectedFVs argOf (ix + 1) rest

/-- The spec's `VariantPlan` collection: included variants contribute their
construction expression in declaration order, excluded variants nothing. -/
def plannedCtors (name : String) (skipOf : Variant → Bool)
    (fvsOf : Variant → List FieldValue) : List Variant → List VariantCtor
  | [] => []
  | v :: rest =>
      if skipOf v then plannedCtors name skipOf fvsOf rest
      else ⟨[name, v.ident], fvsOf v⟩ :: plannedCtors name skipOf fvsOf rest

/-! ### Helper lemmas -/

theorem collectConfigs_ok_length : ∀ {l : List Attribute} {cs : List Arg},
    collectConfigs l = .ok cs → cs.length = l.length := by
  intro l
  induction l with
  | nil =>
      intro cs h
      simp only [collectConfigs] at h
      cases h
      rfl
  | cons a rest ih =>
      intro cs h
      simp only [collectConfigs] at h
      cases hp : parseAttr a with
      | error e => rw [hp] at h; cases h
      | ok arg =>
          rw [hp] at h
          cases hr : collectConfigs rest with
          | error e => rw [hr] at h; cases h
          | ok rest' =>
              rw [hr] at h
              cases h
              simp [ih hr]

theorem collectConfigs_ok_mem : ∀ {l : List Attribute} {cs : List Arg},
    collectConfigs l = .ok cs → ∀ a ∈ l, ∃ c, parseAttr a = .ok c := by
  intro l
  induction l with
  | nil => intro cs _ a ha; cases ha
  | cons a rest ih =>
      intro cs h b hb
      simp only [collectConfigs] at h
      cases hp : parseAttr a with
      | error e => rw [hp] at h; cases h
      | ok arg =>
          rw [hp] at h
          cases hr : collectConfigs rest with
          | error e => rw [hr] at h; cases h
          | ok rest' =>
              rcases List.mem_cons.mp hb with hb | hb
              · exact ⟨arg, hb ▸ hp⟩
              · exact ih hr b hb

theorem evalOptions_length (env : Env) :
    ∀ (opts : List VariantCtor) (s : GenState),
      (evalOptions env opts s).1.length = opts.length := by
  intro opts
  induction opts with
  | nil => intro s; rfl
  | cons vc rest ih =>
      intro s
      simp only [evalOptions]
      simp [ih]

theorem fieldValuesFrom_spec (argOf : Field → Option Arg) :
    ∀ (fs : List Field) (ix : Nat),
      (∀ f ∈ fs, get_one_arg f.attrs = .ok (argOf f) ∧ fieldArgOk (argOf f) = true) →
      fieldValuesFrom ix fs = .ok (expectedFVs argOf ix fs) := by
  intro fs
  induction fs with
  | nil => intro ix _; rfl
  | cons f rest ih =>
      intro ix h
      obtain ⟨h1, h2⟩ := h f (by simp)
      have hrest := ih (ix + 1) (fun f' hf' => h f' (by simp [hf']))
      have hfv : fieldValue ix f = .ok ⟨memberOf ix f, fieldExprOf (argOf f) f.ty⟩ := by
        unfold fieldValue
        rw [h1]
        cases harg : argOf f with
        | none => simp [fieldExprOf]
        | some a => cases a <;> rw [harg] at h2 <;> simp_all [fieldArgOk, fieldExprOf]
      simp only [fieldValuesFrom, expectedFVs]
      rw [hfv, hrest]

theorem variantCtors_spec (name : String) (skipOf : Variant → Bool)
    (fvsOf : Variant → List FieldValue) :
    ∀ (vs : List Variant),
      (∀ v ∈ vs,
        (skipOf v = true ∧ get_one_arg v.attrs = .ok (some .skip)) ∨
        (skipOf v = false ∧ get_one_arg v.attrs = .ok none ∧
          field_values v.fields = .ok (fvsOf v))) →
      variantCtors name vs = .ok (plannedCtors name skipOf fvsOf vs) := by
  intro vs
  induction vs with
  | nil => intro _; rfl
  | cons v rest ih =>
      intro h
      have hrest := ih (fun v' hv' => h v' (by simp [hv']))
      simp only [variantCtors, plannedCtors]
      rcases h v (by simp) with ⟨hs, ha⟩ | ⟨hs, ha, hf⟩
      · have hv : variantCtorOf name v = .ok none := by
          unfold variantCtorOf; rw [ha]
        rw [hv, hrest, hs]
        simp
      · have hv : variantCtorOf name v = .ok (some ⟨[name, v.ident], fvsOf v⟩) := by
          unfold variantCtorOf; rw [ha, hf]
        rw [hv, hrest, hs]
        simp

theorem plannedCtors_const_skip (name : String) (f : Variant → List FieldValue) :
    ∀ vs : List Variant, plannedCtors name (fun _ => true) f vs = [] := by
  intro vs
  induction vs with
  | nil => rfl
  | cons v rest ih => simp [plannedCtors, ih]

theorem expand_eq_ok {input : DeriveInput} {preds : List String} {ctor : Ctor}
    (h1 : itemPredicates input.attrs = .ok preds)
    (h2 : ctorOf input.ident input.data = .ok ctor) :
    expand_arbitrary input = .ok ⟨input.ident, input.generics, preds, ctor⟩ := by
  unfold expand_arbitrary
  rw [h1, h2]

theorem expand_item_error {input : DeriveInput} {e : SynError}
    (h : itemPredicates input.attrs = .error e) :
    expand_arbitrary input = .error e := by
  unfold expand_arbitrary
  rw [h]

theorem expand_ctor_error {input : DeriveInput} {preds : List String} {e : SynError}
    (h1 : itemPredicates input.attrs = .ok preds)
    (h2 : ctorOf input.ident input.data = .error e) :
    expand_arbitrary input = .error e := by
  unfold expand_arbitrary
  rw [h1, h2]

theorem evalChoose_spec (env : Env) (opts : List VariantCtor) (s : GenState)
    (h : opts ≠ []) :
    evalCtor env (.chooseExpr opts) s
      = .ok ((evalOptions env opts s).1.getD
               ((evalOptions env opts s).2.rand (evalOptions env opts s).2.idx
                  % opts.length)
               (Val.prim 0),
             ⟨(evalOptions env opts s).2.rand, (evalOptions env opts s).2.idx + 1,
              (evalOptions env opts s).2.trace⟩) := by
  have hlen := evalOptions_length env opts s
  simp only [evalCtor]
  cases hop : (evalOptions env opts s).1 with
  | nil =>
      exfalso
      rw [hop] at hlen
      exact h (List.length_eq_zero.mp hlen.symm)
  | cons o os =>
      rw [hop] at hlen
      simp only [List.length_cons] at hlen
      simp only [genChoose]
      rw [← hlen]
      have hmod : (evalOptions env opts s).2.rand (evalOptions env opts s).2.idx
          % (os.length + 1) < (o :: os).length := by
        simpa using Nat.mod_lt _ (Nat.succ_pos os.length)
      rw [List.getD_eq_getElem _ _ hmod, List.getD_eq_getElem _ _ hmod]

/-- Configurations illegal on a variant site (everything except `skip`). -/
def variantArgBad : Arg → Bool
  | .skip => false
  | .gen _ => true
  | .default => true
  | .whereArg _ => true

/-- Configurations illegal on the item site (everything except `where`). -/
def itemArgBad : Arg → Bool
  | .whereArg _ => false
  | .skip => true
  | .gen _ => true
  | .default => true

theorem fieldValuesFrom_bad (argOf : Field → Option Arg) :
    ∀ (fs : List Field) (ix : Nat),
      (∀ f ∈ fs, get_one_arg f.attrs = .ok (argOf f)) →
      (∃ f ∈ fs, argOf f = some .skip ∨ ∃ ps, argOf f = some (.whereArg ps)) →
      fieldValuesFrom ix fs = .error (SynError.new memberMsg) := by
  intro fs
  induction fs with
  | nil =>
      intro ix _ hbad
      rcases hbad with ⟨f, hf, _⟩
      cases hf
  | cons f rest ih =>
      intro ix hall hbad
      have ha := hall f (by simp)
      by_cases hb : argOf f = some .skip ∨ ∃ ps, argOf f = some (.whereArg ps)
      · have hfv : fieldValue ix f = .error (SynError.new memberMsg) := by
          unfold fieldValue
          rw [ha]
          rcases hb with hb | ⟨ps, hb⟩ <;> rw [hb]
        simp only [fieldValuesFrom]
        rw [hfv]
      · have hbad' : ∃ f' ∈ rest,
            argOf f' = some .skip ∨ ∃ ps, argOf f' = some (.whereArg ps) := by
          rcases hbad with ⟨f', hf', hb'⟩
          rcases List.mem_cons.mp hf' with rfl | hf'
          · exact absurd hb' hb
          · exact ⟨f', hf', hb'⟩
        have hrest := ih (ix + 1) (fun f' hf' => hall f' (by simp [hf'])) hbad'
        have hgood : ∃ fv, fieldValue ix f = .ok fv := by
          unfold fieldValue
          rw [ha]
          cases hx : argOf f with
          | none => exact ⟨_, rfl⟩
          | some a =>
              cases a with
              | skip => exact absurd (Or.inl hx) hb
              | gen ts => exact ⟨_, rfl⟩
              | default => exact ⟨_, rfl⟩
              | whereArg ps => exact absurd (Or.inr ⟨ps, hx⟩) hb
        rcases hgood with ⟨fv, hfv⟩
        simp only [fieldValuesFrom]
        rw [hfv, hrest]

theorem variantCtors_bad (name : String) (argOf : Variant → Option Arg)
    (fvsOf : Variant → List FieldValue) :
    ∀ vs : List Variant,
      (∀ v ∈ vs, get_one_arg v.attrs = .ok (argOf v) ∧
        (argOf v = none → field_values v.fields = .ok (fvsOf v))) →
      (∃ v ∈ vs, ∃ a, argOf v = some a ∧ variantArgBad a = true) →
      variantCtors name vs = .error (SynError.new variantMsg) := by
  intro vs
  induction vs with
  | nil =>
      intro _ hbad
      rcases hbad with ⟨v, hv, _⟩
      cases hv
  | cons v rest ih =>
      intro hall hbad
      obtain ⟨ha, hfv⟩ := hall v (by simp)
      by_cases hb : ∃ a, argOf v = some a ∧ variantArgBad a = true
      · rcases hb with ⟨a, hx, hbad'⟩
        have hvc : variantCtorOf name v = .error (SynError.new variantMsg) := by
          unfold variantCtorOf
          rw [ha, hx]
          cases a <;> first | rfl | simp_all [variantArgBad]
        simp only [variantCtors]
        rw [hvc]
      · have hbad' : ∃ v' ∈ rest, ∃ a, argOf v' = some a ∧ variantArgBad a = true := by
          rcases hbad with ⟨v', hv', ha'⟩
          rcases List.mem_cons.mp hv' with rfl | hv'
          · exact absurd ha' hb
          · exact ⟨v', hv', ha'⟩
        have hrest := ih (fun v' h => hall v' (by simp [h])) hbad'
        have hok : ∃ o, variantCtorOf name v = .ok o := by
          unfold variantCtorOf
          rw [ha]
          cases hx : argOf v with
          | none =>
              rw [hfv hx]
              exact ⟨_, rfl⟩
          | some a =>
              cases a with
              | skip => exact ⟨_, rfl⟩
              | gen ts => exact absurd ⟨_, hx, rfl⟩ hb
              | default => exact absurd ⟨_, hx, rfl⟩ hb
              | whereArg ps => exact absurd ⟨_, hx, rfl⟩ hb
        rcases hok with ⟨o, ho⟩
        simp only [variantCtors]
        rw [ho, hrest]

/-! ### Sample environment and state used by the witnesses -/

/-- A concrete collaborator environment: recursive `arbitrary` consumes one
stream number and logs an event, `default` is a pure value, a `gen` callable
logs an event without consuming randomness. -/
def sampleEnv : Env :=
  ⟨fun ty s => (Val.prim (s.rand s.idx), ⟨s.rand, s.idx + 1, s.trace ++ ["arbitrary " ++ ty]⟩),
   fun _ => Val.prim 0,
   fun _ ty s => (Val.prim 7, ⟨s.rand, s.idx, s.trace ++ ["gen " ++ ty]⟩)⟩

/-- A concrete generator state. -/
def sampleState : GenState := ⟨fun n => n + 2, 0, []⟩

/-- A `#[arbitrary(skip)]` attribute. -/
def attrSkip : Attribute := ⟨true, .outer, .ok ⟨none, true, false, none⟩⟩

/-- A `#[arbitrary(default)]` attribute. -/
def attrDefault : Attribute := ⟨true, .outer, .ok ⟨none, false, true, none⟩⟩

/-- A `#[arbitrary(gen(..))]` attribute. -/
def attrGen : Attribute := ⟨true, .outer, .ok ⟨some ["|g| 7"], false, false, none⟩⟩

/-- A `#[arbitrary(where(T: Arbitrary))]` attribute. -/
def attrWhere : Attribute :=
  ⟨true, .outer, .ok ⟨none, false, false, some (.ok ["T: Arbitrary"])⟩⟩

/-- An `#[arbitrary(..)]` attribute whose content the external parser
rejects. -/
def attrMalformed : Attribute := ⟨true, .outer, .error ⟨["boom"]⟩⟩

/-! ### Claims -/

/-- C1: for an enum declaration whose item-level annotations resolve to a
predicate list and whose variants each resolve either to `skip` (plan
`Exclude`) or to no configuration with successfully resolved fields (plan
`Include`), the synthesized constructor is the choose expression over exactly
the included variants' construction expressions in declaration order —
excluded variants contribute nothing — and running it on any environment and
generator state first materializes every included variant's construction
expression (the options array, threading the handle through all of them, so
all `gen` effects and all `Recurse` randomness consumption happen on every
call), and only then consumes one more random number `r` from the handle to
pick, and clone, element `r % n` of the fully evaluated `n`-element
collection. -/
theorem c1_enum_eager_uniform_selection
    (name : String) (generics : TokenStream) (attrs : List Attribute)
    (vs : List Variant) (preds : List String)
    (skipOf : Variant → Bool) (fvsOf : Variant → List FieldValue)
    (env : Env) (s : GenState) (opts : List VariantCtor)
    (hitem : itemPredicates attrs = .ok preds)
    (hvars : ∀ v ∈ vs,
      (skipOf v = true ∧ get_one_arg v.attrs = .ok (some .skip)) ∨
      (skipOf v = false ∧ get_one_arg v.attrs = .ok none ∧
        field_values v.fields = .ok (fvsOf v)))
    (hopts : plannedCtors name skipOf fvsOf vs = opts)
    (hne : opts ≠ []) :
    expand_arbitrary ⟨name, generics, attrs, .dataEnum vs⟩
      = .ok ⟨name, generics, preds, .chooseExpr opts⟩
    ∧ (evalOptions env opts s).1.length = opts.length
    ∧ evalCtor env (.chooseExpr opts) s
      = .ok ((evalOptions env opts s).1.getD
               ((evalOptions env opts s).2.rand (evalOptions env opts s).2.idx
                  % opts.length)
               (Val.prim 0),
             ⟨(evalOptions env opts s).2.rand, (evalOptions env opts s).2.idx + 1,
              (evalOptions env opts s).2.trace⟩) := by
  subst hopts
  refine ⟨expand_eq_ok hitem ?_, evalOptions_length env _ s, evalChoose_spec env _ s hne⟩
  simp only [ctorOf]
  rw [variantCtors_spec name skipOf fvsOf vs hvars]

/-- Witness for C1: a two-variant enum whose second variant is skipped. -/
theorem c1_witness :
    expand_arbitrary ⟨"E", [], [],
        .dataEnum [⟨[], "A", []⟩, ⟨[attrSkip], "B", []⟩]⟩
      = .ok ⟨"E", [], [], .chooseExpr [⟨["E", "A"], []⟩]⟩
    ∧ (evalOptions sampleEnv [⟨["E", "A"], []⟩] sampleState).1.length
        = [(⟨["E", "A"], []⟩ : VariantCtor)].length
    ∧ evalCtor sampleEnv (.chooseExpr [⟨["E", "A"], []⟩]) sampleState
      = .ok ((evalOptions sampleEnv [⟨["E", "A"], []⟩] sampleState).1.getD
               ((evalOptions sampleEnv [⟨["E", "A"], []⟩] sampleState).2.rand
                  (evalOptions sampleEnv [⟨["E", "A"], []⟩] sampleState).2.idx
                  % [(⟨["E", "A"], []⟩ : VariantCtor)].length)
               (Val.prim 0),
             ⟨(evalOptions sampleEnv [⟨["E", "A"], []⟩] sampleState).2.rand,
              (evalOptions sampleEnv [⟨["E", "A"], []⟩] sampleState).2.idx + 1,
              (evalOptions sampleEnv [⟨["E", "A"], []⟩] sampleState).2.trace⟩) :=
  c1_enum_eager_uniform_selection "E" [] []
    [⟨[], "A", []⟩, ⟨[attrSkip], "B", []⟩] []
    (fun v => !v.attrs.isEmpty) (fun _ => []) sampleEnv sampleState
    [⟨["E", "A"], []⟩] rfl
    (by
      intro v hv
      rcases List.mem_cons.mp hv with rfl | hv
      · exact Or.inr ⟨rfl, rfl, rfl⟩
      · rcases List.mem_cons.mp hv with rfl | hv
        · exact Or.inl ⟨rfl, rfl⟩
        · cases hv)
    rfl (by simp)

/-- C2: for a record declaration whose item-level annotations resolve to a
predicate list and whose fields each resolve to a field-legal configuration,
the synthesized constructor is one construction expression covering every
field in declaration order, members named (or positional), with each field's
value expression given by its resolved strategy (`gen` becomes the
cast-and-call of the user expression, `default` the default call, no
configuration the recursive `arbitrary` call); semantically a `gen` field
invokes the cast callable exactly once forwarding the handle, a `default`
field does not consume the handle, and an unannotated field calls the member
type's own `arbitrary` with the shared handle. -/
theorem c2_record_field_strategies
    (name : String) (generics : TokenStream) (attrs : List Attribute)
    (fs : List Field) (preds : List String) (argOf : Field → Option Arg)
    (env : Env) (s : GenState) (custom : TokenStream) (ty : String)
    (hitem : itemPredicates attrs = .ok preds)
    (hfields : ∀ f ∈ fs,
      get_one_arg f.attrs = .ok (argOf f) ∧ fieldArgOk (argOf f) = true) :
    expand_arbitrary ⟨name, generics, attrs, .dataStruct fs⟩
      = .ok ⟨name, generics, preds, .structExpr [name] (expectedFVs argOf 0 fs)⟩
    ∧ evalFieldExpr env (.genCall custom ty) s = env.genImpl custom ty s
    ∧ evalFieldExpr env (.defaultCall ty) s = (env.defaultImpl ty, s)
    ∧ evalFieldExpr env (.arbitraryCall ty) s = env.arbitraryImpl ty s := by
  refine ⟨expand_eq_ok hitem ?_, rfl, rfl, rfl⟩
  simp only [ctorOf, field_values]
  rw [fieldValuesFrom_spec argOf fs 0 hfields]

/-- Witness for C2: a three-field record exercising all three strategies. -/
theorem c2_witness :
    expand_arbitrary ⟨"Yak", [], [],
        .dataStruct [⟨[], some "id", "usize"⟩, ⟨[attrGen], some "name", "String"⟩,
          ⟨[attrDefault], none, "bool"⟩]⟩
      = .ok ⟨"Yak", [], [], .structExpr ["Yak"]
          (expectedFVs
            (fun f => if f.attrs.isEmpty then none
                      else if f.ident.isSome then some (.gen ["|g| 7"]) else some .default)
            0
            [⟨[], some "id", "usize"⟩, ⟨[attrGen], some "name", "String"⟩,
             ⟨[attrDefault], none, "bool"⟩])⟩
    ∧ evalFieldExpr sampleEnv (.genCall ["|g| 7"] "usize") sampleState
        = sampleEnv.genImpl ["|g| 7"] "usize" sampleState
    ∧ evalFieldExpr sampleEnv (.defaultCall "usize") sampleState
        = (sampleEnv.defaultImpl "usize", sampleState)
    ∧ evalFieldExpr sampleEnv (.arbitraryCall "usize") sampleState
        = sampleEnv.arbitraryImpl "usize" sampleState :=
  c2_record_field_strategies "Yak" [] []
    [⟨[], some "id", "usize"⟩, ⟨[attrGen], some "name", "String"⟩,
     ⟨[attrDefault], none, "bool"⟩] []
    (fun f => if f.attrs.isEmpty then none
              else if f.ident.isSome then some (.gen ["|g| 7"]) else some .default)
    sampleEnv sampleState ["|g| 7"] "usize" rfl
    (by
      intro f hf
      rcases List.mem_cons.mp hf with rfl | hf
      · exact ⟨rfl, rfl⟩
      · rcases List.mem_cons.mp hf with rfl | hf
        · exact ⟨rfl, rfl⟩
        · rcases List.mem_cons.mp hf with rfl | hf
          · exact ⟨rfl, rfl⟩
          · cases hf)

/-- C3: the generated implementation's where-clause predicate list is exactly
the item-level `where` bound list when one is configured (replacing, not
merging), and is empty when the item carries no configuration (no constraints
beyond the declaration's own generic parameter list, which is passed through
unchanged). -/
theorem c3_where_clause_exact
    (input : DeriveInput) (r : Option Arg) (g : Generated)
    (h1 : get_one_arg input.attrs = .ok r)
    (h2 : expand_arbitrary input = .ok g) :
    g.predicates = (match r with
                    | some (.whereArg preds) => preds
                    | _ => ([] : List String))
    ∧ g.generics = input.generics := by
  have main : ∀ preds, itemPredicates input.attrs = .ok preds →
      g.predicates = preds ∧ g.generics = input.generics := by
    intro preds hip
    unfold expand_arbitrary at h2
    rw [hip] at h2
    cases hc : ctorOf input.ident input.data with
    | error e => rw [hc] at h2; cases h2
    | ok ctor => rw [hc] at h2; cases h2; exact ⟨rfl, rfl⟩
  rcases r with _ | a
  · exact main [] (by unfold itemPredicates; rw [h1])
  · cases a with
    | skip =>
        exfalso
        have hip : itemPredicates input.attrs = .error (SynError.new itemMsg) := by
          unfold itemPredicates; rw [h1]
        rw [expand_item_error hip] at h2
        cases h2
    | gen ts =>
        exfalso
        have hip : itemPredicates input.attrs = .error (SynError.new itemMsg) := by
          unfold itemPredicates; rw [h1]
        rw [expand_item_error hip] at h2
        cases h2
    | default =>
        exfalso
        have hip : itemPredicates input.attrs = .error (SynError.new itemMsg) := by
          unfold itemPredicates; rw [h1]
        rw [expand_item_error hip] at h2
        cases h2
    | whereArg preds => exact main preds (by unfold itemPredicates; rw [h1])

/-- Witness for C3: a generic struct with an item-level `where` bound list. -/
theorem c3_witness :
    (Generated.mk "GenericYak" ["<T>"] ["T: Arbitrary"]
        (.structExpr ["GenericYak"] [⟨.named "name", .arbitraryCall "T"⟩])).predicates
      = (match some (Arg.whereArg ["T: Arbitrary"]) with
         | some (.whereArg preds) => preds
         | _ => ([] : List String))
    ∧ (Generated.mk "GenericYak" ["<T>"] ["T: Arbitrary"]
        (.structExpr ["GenericYak"] [⟨.named "name", .arbitraryCall "T"⟩])).generics
      = (DeriveInput.mk "GenericYak" ["<T>"] [attrWhere]
          (.dataStruct [⟨[], some "name", "T"⟩])).generics :=
  c3_where_clause_exact
    ⟨"GenericYak", ["<T>"], [attrWhere], .dataStruct [⟨[], some "name", "T"⟩]⟩
    (some (.whereArg ["T: Arbitrary"]))
    ⟨"GenericYak", ["<T>"], ["T: Arbitrary"],
      .structExpr ["GenericYak"] [⟨.named "name", .arbitraryCall "T"⟩]⟩
    rfl rfl

/-- C4: for an enum declaration in which every variant is annotated `skip`
(and whose item-level annotations resolve), generation succeeds — no
build-time error — producing the choose expression over an empty options
array, and the generated selector fails at the moment it is first invoked
with the "no variants to choose from" failure: it neither returns a default
value nor loops. -/
theorem c4_all_skip_runtime_failure
    (name : String) (generics : TokenStream) (attrs : List Attribute)
    (vs : List Variant) (preds : List String) (env : Env) (s : GenState)
    (hitem : itemPredicates attrs = .ok preds)
    (hvars : ∀ v ∈ vs, get_one_arg v.attrs = .ok (some .skip)) :
    expand_arbitrary ⟨name, generics, attrs, .dataEnum vs⟩
      = .ok ⟨name, generics, preds, .chooseExpr []⟩
    ∧ evalCtor env (.chooseExpr []) s = .error chooseMsg := by
  refine ⟨expand_eq_ok hitem ?_, rfl⟩
  simp only [ctorOf]
  have h1 : variantCtors name vs
      = .ok (plannedCtors name (fun _ => true) (fun _ => []) vs) :=
    variantCtors_spec name _ _ vs (fun v hv => Or.inl ⟨rfl, hvars v hv⟩)
  rw [h1, plannedCtors_const_skip]

/-- Witness for C4: an enum whose single variant is skipped. -/
theorem c4_witness :
    expand_arbitrary ⟨"E", [], [], .dataEnum [⟨[attrSkip], "A", []⟩]⟩
      = .ok ⟨"E", [], [], .chooseExpr []⟩
    ∧ evalCtor sampleEnv (.chooseExpr []) sampleState = .error chooseMsg :=
  c4_all_skip_runtime_failure "E" [] [] [⟨[attrSkip], "A", []⟩] []
    sampleEnv sampleState rfl
    (by
      intro v hv
      rcases List.mem_cons.mp hv with rfl | hv
      · rfl
      · cases hv)

/-- C5: the annotation micro-grammar is all-or-nothing: when the external
parser fails (which covers unrecognized keys), the result is the unified
hint error with the underlying failure chained after it; when it succeeds
but no recognized key or more than one recognized key is present, the result
is the unified hint error; when exactly one key is present, the result is
exactly that key's configuration (`skip`, `gen` with its tokens, `default`,
or `where` with its parsed predicate list).  The hint's exact source text is
"expected one of  `gen`, `default`, `where` or `skip`". -/
theorem c5_unified_micro_grammar
    (e : SynError) (a0 a2 : AttrArgs) (ts : TokenStream) (preds : List String)
    (h0 : keyCount a0 = 0) (h2 : 2 ≤ keyCount a2) :
    Arg.parse (.error e) = .error ⟨hintMsg :: e.msgs⟩
    ∧ Arg.parse (.ok a0) = .error (SynError.new hintMsg)
    ∧ Arg.parse (.ok a2) = .error (SynError.new hintMsg)
    ∧ Arg.parse (.ok ⟨none, true, false, none⟩) = .ok .skip
    ∧ Arg.parse (.ok ⟨some ts, false, false, none⟩) = .ok (.gen ts)
    ∧ Arg.parse (.ok ⟨none, false, true, none⟩) = .ok .default
    ∧ Arg.parse (.ok ⟨none, false, false, some (.ok preds)⟩)
        = .ok (.whereArg preds) := by
  refine ⟨rfl, ?_, ?_, rfl, rfl, rfl, rfl⟩
  · obtain ⟨g, sk, d, w⟩ := a0
    cases g <;> cases sk <;> cases d <;> cases w <;>
      first | rfl | simp [keyCount] at h0
  · obtain ⟨g, sk, d, w⟩ := a2
    cases g <;> cases sk <;> cases d <;> cases w <;>
      first | rfl | simp [keyCount] at h2

/-- Witness for C5 at a failing parse, an empty record, a two-key record,
and the four single-key records. -/
theorem c5_witness :
    Arg.parse (.error ⟨["boom"]⟩) = .error ⟨hintMsg :: ["boom"]⟩
    ∧ Arg.parse (.ok ⟨none, false, false, none⟩) = .error (SynError.new hintMsg)
    ∧ Arg.parse (.ok ⟨none, true, true, none⟩) = .error (SynError.new hintMsg)
    ∧ Arg.parse (.ok ⟨none, true, false, none⟩) = .ok .skip
    ∧ Arg.parse (.ok ⟨some ["|g| 7"], false, false, none⟩) = .ok (.gen ["|g| 7"])
    ∧ Arg.parse (.ok ⟨none, false, true, none⟩) = .ok .default
    ∧ Arg.parse (.ok ⟨none, false, false, some (.ok ["T: Arbitrary"])⟩)
        = .ok (.whereArg ["T: Arbitrary"]) :=
  c5_unified_micro_grammar ⟨["boom"]⟩ ⟨none, false, false, none⟩
    ⟨none, true, true, none⟩ ["|g| 7"] ["T: Arbitrary"] (by decide) (by decide)

/-- C6: site applicability is enforced after parsing: a `skip` (or `where`)
configuration on a field is rejected with the "not valid for members" error;
a `gen`, `default` or `where` configuration on an enum variant makes the
whole expansion fail with the "not valid for enum variants" error; a `gen`,
`default` or `skip` configuration on the item makes the whole expansion fail
with the "only `where` is valid for items" error. -/
theorem c6_site_applicability
    (fs : List Field) (argOfF : Field → Option Arg)
    (name : String) (generics : TokenStream) (attrs : List Attribute)
    (vs : List Variant) (preds : List String)
    (argOfV : Variant → Option Arg) (fvsOf : Variant → List FieldValue)
    (input2 : DeriveInput) (a2 : Arg)
    (hallF : ∀ f ∈ fs, get_one_arg f.attrs = .ok (argOfF f))
    (hbadF : ∃ f ∈ fs, argOfF f = some .skip ∨ ∃ ps, argOfF f = some (.whereArg ps))
    (hitem : itemPredicates attrs = .ok preds)
    (hallV : ∀ v ∈ vs, get_one_arg v.attrs = .ok (argOfV v) ∧
      (argOfV v = none → field_values v.fields = .ok (fvsOf v)))
    (hbadV : ∃ v ∈ vs, ∃ a, argOfV v = some a ∧ variantArgBad a = true)
    (hitem2 : get_one_arg input2.attrs = .ok (some a2))
    (hbad2 : itemArgBad a2 = true) :
    field_values fs = .error (SynError.new memberMsg)
    ∧ expand_arbitrary ⟨name, generics, attrs, .dataEnum vs⟩
        = .error (SynError.new variantMsg)
    ∧ expand_arbitrary input2 = .error (SynError.new itemMsg) := by
  refine ⟨fieldValuesFrom_bad argOfF fs 0 hallF hbadF, ?_, ?_⟩
  · refine expand_ctor_error hitem ?_
    simp only [ctorOf]
    rw [variantCtors_bad name argOfV fvsOf vs hallV hbadV]
  · refine expand_item_error ?_
    unfold itemPredicates
    rw [hitem2]
    cases a2 <;> first | rfl | simp_all [itemArgBad]

/-- Witness for C6: a `skip` field, a `default` variant, a `skip` item. -/
theorem c6_witness :
    field_values [⟨[attrSkip], some "x", "u8"⟩] = .error (SynError.new memberMsg)
    ∧ expand_arbitrary ⟨"E", [], [], .dataEnum [⟨[attrDefault], "A", []⟩]⟩
        = .error (SynError.new variantMsg)
    ∧ expand_arbitrary ⟨"S", [], [attrSkip], .dataStruct []⟩
        = .error (SynError.new itemMsg) :=
  c6_site_applicability
    [⟨[attrSkip], some "x", "u8"⟩] (fun _ => some .skip)
    "E" [] [] [⟨[attrDefault], "A", []⟩] [] (fun _ => some .default) (fun _ => [])
    ⟨"S", [], [attrSkip], .dataStruct []⟩ .skip
    (by
      intro f hf
      rcases List.mem_cons.mp hf with rfl | hf
      · rfl
      · cases hf)
    ⟨⟨[attrSkip], some "x", "u8"⟩, by simp, Or.inl rfl⟩
    rfl
    (by
      intro v hv
      rcases List.mem_cons.mp hv with rfl | hv
      · exact ⟨rfl, fun h => by cases h⟩
      · cases hv)
    ⟨⟨[attrDefault], "A", []⟩, by simp, .default, rfl, rfl⟩
    rfl rfl

/-- C7 counterexample: a site carrying two reserved-marker blocks, the first
of which the external parser rejects.  Resolution fails with the chained
parse error, not with the duplication error, refuting the claim that every
site with two or more blocks fails with a duplication error. -/
theorem c7_counterexample :
    get_one_arg [attrMalformed, attrDefault] = .error ⟨[hintMsg, "boom"]⟩
    ∧ get_one_arg [attrMalformed, attrDefault] ≠ .error (SynError.new dupMsg) :=
  ⟨rfl, by decide⟩

/-- C7 (amended): for every site carrying two or more reserved-marker
annotation blocks, resolution always fails — it never silently picks one —
and it fails with the duplication error whenever every block parses
successfully (otherwise the first block's parse or style error is reported
instead). -/
theorem c7_duplicate_always_fails
    (attrs : List Attribute) (cs : List Arg)
    (h2 : 2 ≤ (attrs.filter (·.isArbitrary)).length) :
    (∀ r, get_one_arg attrs ≠ .ok r)
    ∧ (collectConfigs (attrs.filter (·.isArbitrary)) = .ok cs →
        get_one_arg attrs = .error (SynError.new dupMsg)) := by
  constructor
  · intro r hr
    unfold get_one_arg at hr
    cases hc : collectConfigs (attrs.filter (·.isArbitrary)) with
    | error e => rw [hc] at hr; cases hr
    | ok cs' =>
        rw [hc] at hr
        have hl := collectConfigs_ok_length hc
        cases cs' with
        | nil => simp at hl; omega
        | cons c cs'' =>
            cases cs'' with
            | nil => simp at hl; omega
            | cons c2 cs''' => cases hr
  · intro hok
    unfold get_one_arg
    rw [hok]
    have hl := collectConfigs_ok_length hok
    cases cs with
    | nil => exfalso; simp at hl; omega
    | cons c cs' =>
        cases cs' with
        | nil => exfalso; simp at hl; omega
        | cons c2 cs'' => rfl

/-- Witness for C7 (amended) at a site with two well-formed `default`
blocks. -/
theorem c7_witness :
    (∀ r, get_one_arg [attrDefault, attrDefault] ≠ .ok r)
    ∧ (collectConfigs ([attrDefault, attrDefault].filter (·.isArbitrary))
          = .ok [.default, .default] →
        get_one_arg [attrDefault, attrDefault] = .error (SynError.new dupMsg)) :=
  c7_duplicate_always_fails [attrDefault, attrDefault] [.default, .default]
    (by decide)

/-- C8: only outer-style annotations are accepted — a reserved-marker
annotation written in inner style is a hard error with the "only outer
attributes are supported" message regardless of its content, and its
presence on a site means resolution can never succeed — while non-reserved
(foreign) annotations are ignored: resolution depends only on the
marker-matching blocks, and dropping a foreign block changes nothing. -/
theorem c8_outer_only_foreign_ignored
    (parsed : Except SynError AttrArgs) (attrs0 : List Attribute)
    (b : Attribute) (attrs1 : List Attribute) (attrs2 : List Attribute)
    (hb : b.isArbitrary = false)
    (hsome : ∃ a ∈ attrs2, a.isArbitrary = true ∧ a.style = .inner) :
    get_one_arg attrs0 = get_one_arg (attrs0.filter (·.isArbitrary))
    ∧ get_one_arg (b :: attrs1) = get_one_arg attrs1
    ∧ parseAttr ⟨true, .inner, parsed⟩ = .error (SynError.new innerMsg)
    ∧ (∀ r, get_one_arg attrs2 ≠ .ok r) := by
  refine ⟨?_, ?_, rfl, ?_⟩
  · unfold get_one_arg
    rw [List.filter_filter]
    simp
  · unfold get_one_arg
    simp [List.filter_cons, hb]
  · intro r hr
    rcases hsome with ⟨a, ha, haa, hst⟩
    unfold get_one_arg at hr
    cases hc : collectConfigs (attrs2.filter (·.isArbitrary)) with
    | error e => rw [hc] at hr; cases hr
    | ok cs =>
        obtain ⟨c, hcc⟩ := collectConfigs_ok_mem hc a (List.mem_filter.mpr ⟨ha, haa⟩)
        unfold parseAttr at hcc
        rw [hst] at hcc
        cases hcc

/-- Witness for C8: a foreign attribute before a `default` block, and a site
with one inner-style reserved block. -/
theorem c8_witness :
    get_one_arg [⟨false, .outer, .error ⟨["foreign"]⟩⟩, attrDefault]
      = get_one_arg
          ([⟨false, .outer, .error ⟨["foreign"]⟩⟩, attrDefault].filter (·.isArbitrary))
    ∧ get_one_arg (⟨false, .outer, .error ⟨["foreign"]⟩⟩ :: [attrDefault])
        = get_one_arg [attrDefault]
    ∧ parseAttr ⟨true, .inner, .ok ⟨none, true, false, none⟩⟩
        = .error (SynError.new innerMsg)
    ∧ (∀ r, get_one_arg [⟨true, .inner, .ok ⟨none, true, false, none⟩⟩] ≠ .ok r) :=
  c8_outer_only_foreign_ignored (.ok ⟨none, true, false, none⟩)
    [⟨false, .outer, .error ⟨["foreign"]⟩⟩, attrDefault]
    ⟨false, .outer, .error ⟨["foreign"]⟩⟩ [attrDefault]
    [⟨true, .inner, .ok ⟨none, true, false, none⟩⟩]
    rfl
    ⟨⟨true, .inner, .ok ⟨none, true, false, none⟩⟩, by simp, rfl, rfl⟩

/-- C9: a `union` declaration is always rejected — expansion never succeeds,
so no code is generated and the constructor synthesis is never reached — and
whenever the item-level annotations themselves resolve, the reported error
is exactly the unsupported-declaration-kind message. -/
theorem c9_union_rejected
    (input : DeriveInput) (preds : List String)
    (hdata : input.data = .dataUnion) :
    (∀ g, expand_arbitrary input ≠ .ok g)
    ∧ (itemPredicates input.attrs = .ok preds →
        expand_arbitrary input = .error (SynError.new unionMsg)) := by
  have hc : ctorOf input.ident input.data = .error (SynError.new unionMsg) := by
    rw [hdata]
    rfl
  constructor
  · intro g hg
    cases hip : itemPredicates input.attrs with
    | error e => rw [expand_item_error hip] at hg; cases hg
    | ok p => rw [expand_ctor_error hip hc] at hg; cases hg
  · intro hip
    exact expand_ctor_error hip hc

/-- Witness for C9 at a plain union declaration. -/
theorem c9_witness :
    (∀ g, expand_arbitrary ⟨"U", [], [], .dataUnion⟩ ≠ .ok g)
    ∧ (itemPredicates ([] : List Attribute) = .ok ([] : List String) →
        expand_arbitrary ⟨"U", [], [], .dataUnion⟩
          = .error (SynError.new unionMsg)) :=
  c9_union_rejected ⟨"U", [], [], .dataUnion⟩ [] rfl

/-- C10: every reserved-marker block is parsed (its style checked first)
before the block count is examined, so on a site with two or more blocks
where the collection of per-block parses fails, resolution reports that
parse or style error — the one of the first failing block — rather than the
duplication error. -/
theorem c10_parse_precedes_count
    (attrs : List Attribute) (e : SynError)
    (h2 : 2 ≤ (attrs.filter (·.isArbitrary)).length)
    (he : collectConfigs (attrs.filter (·.isArbitrary)) = .error e) :
    get_one_arg attrs = .error e := by
  unfold get_one_arg
  rw [he]

/-- Witness for C10: two blocks, the second malformed — the chained parse
error is reported, not the duplication error. -/
theorem c10_witness :
    get_one_arg [attrDefault, attrMalformed] = .error ⟨[hintMsg, "boom"]⟩ :=
  c10_parse_precedes_count [attrDefault, attrMalformed] ⟨[hintMsg, "boom"]⟩
    (by decide) rfl

end DQA
